import Mathlib

/-!
Shallow embedding of the Sequence game engine (`src/sequence_game.py`) and of
the heuristic move evaluator (`src/sequence_bot.py`), together with theorems
settling the frozen claims about them.

Python dictionaries keyed by the player ids `0 .. num_players-1` are modelled
as lists indexed by player id; Python sets of board coordinates are modelled
as duplicate-free lists (insertion is guarded by a membership test, exactly as
`set.add` is idempotent); a mutating method that returns `False` on failure is
modelled as a function into `Option GameState` (`none` = `False`, the state is
returned unchanged by construction).
-/

namespace SequenceGame

/-- `ChipColor` enum of the source. -/
inductive ChipColor where
  | EMPTY
  | BLUE
  | GREEN
  | WILD
deriving DecidableEq, Repr

/-- `Card` dataclass: identity is the (rank, suit) pair of strings. -/
structure Card where
  rank : String
  suit : String
deriving DecidableEq, Repr

/-- `str(card)` = rank followed by suit, used to match the board layout. -/
def cardStr (c : Card) : String := c.rank ++ c.suit

def TWO_EYED_JACKS : List String := ["JD", "JC"]
def ONE_EYED_JACKS : List String := ["JS", "JH"]

def Card.is_two_eyed_jack (c : Card) : Bool := TWO_EYED_JACKS.contains (cardStr c)
def Card.is_one_eyed_jack (c : Card) : Bool := ONE_EYED_JACKS.contains (cardStr c)
def Card.is_jack (c : Card) : Bool := c.rank == "J"

/-- `Move` dataclass (board coordinates are always produced in `0..9`). -/
structure Move where
  card : Card
  row : Nat
  col : Nat
  is_removal : Bool := false
deriving DecidableEq, Repr

/-- The fixed 10x10 `BOARD_LAYOUT` table, transcribed cell for cell. -/
def BOARD_LAYOUT : List (List String) := [
  ["XX", "2S", "3S", "4S", "5S", "6S", "7S", "8S", "9S", "XX"],
  ["6C", "5C", "4C", "3C", "2C", "AH", "KH", "QH", "10H", "10S"],
  ["7C", "AS", "2D", "3D", "4D", "5D", "6D", "7D", "9H", "QS"],
  ["8C", "KS", "6C", "5C", "4C", "3C", "2C", "8D", "8H", "KS"],
  ["9C", "QS", "7C", "6H", "5H", "4H", "AH", "9D", "7H", "AS"],
  ["10C", "10S", "8C", "7H", "2H", "3H", "KH", "10D", "6H", "2D"],
  ["QC", "9S", "9C", "8H", "9H", "10H", "QH", "QD", "5H", "3D"],
  ["KC", "8S", "10C", "QC", "KC", "AC", "AD", "KD", "4H", "4D"],
  ["AC", "7S", "6S", "5S", "4S", "3S", "2S", "AS", "3H", "5D"],
  ["XX", "AD", "KD", "QD", "10D", "9D", "8D", "7D", "6D", "XX"]]

/-- Read a cell of the fixed layout (`board_layout[row][col]`). -/
def get_board_card (row col : Nat) : String :=
  (BOARD_LAYOUT.getD row []).getD col "XX"

/-- Read a chip from the 10x10 board grid. -/
def bget (b : List (List ChipColor)) (row col : Nat) : ChipColor :=
  (b.getD row []).getD col ChipColor.EMPTY

/-- Write a chip to the 10x10 board grid (`board[row][col] = v`). -/
def bset (b : List (List ChipColor)) (row col : Nat) (v : ChipColor) :
    List (List ChipColor) :=
  b.set row ((b.getD row []).set col v)

/-- All 100 board coordinates in the row-major order of the source's loops. -/
def allCoords : List (Nat × Nat) :=
  (List.range 10).flatMap (fun r => (List.range 10).map (fun c => (r, c)))

/-- `GameState` dataclass (`move_history` lives on the `SequenceGame` object,
not on the state, and is never read by the engine, so it is not modelled). -/
structure GameState where
  board : List (List ChipColor)
  player_hands : List (List Card)
  deck : List Card
  discard_pile : List Card
  current_player : Nat
  sequences : List (List (List (Nat × Nat)))
  chips_on_board : List (List (Nat × Nat))
  winner : Option Nat := none
  turn_number : Nat := 0
deriving DecidableEq, Repr

/-- `player_hands[p]`. -/
def handOf (s : GameState) (p : Nat) : List Card := s.player_hands.getD p []

/-- `sequences[p]`. -/
def seqsOf (s : GameState) (p : Nat) : List (List (Nat × Nat)) := s.sequences.getD p []

/-- `chips_on_board[p]`. -/
def chipsOf (s : GameState) (p : Nat) : List (Nat × Nat) := s.chips_on_board.getD p []

/-- Idempotent set insertion (`set.add`). -/
def setAdd (l : List (Nat × Nat)) (x : Nat × Nat) : List (Nat × Nat) :=
  if x ∈ l then l else x :: l

/-- `get_chip_color`: player 0 is BLUE, everyone else GREEN. -/
def get_chip_color (player_id : Nat) : ChipColor :=
  if player_id = 0 then ChipColor.BLUE else ChipColor.GREEN

/-- `find_card_positions`: all layout cells whose card string equals the card. -/
def find_card_positions (card : Card) : List (Nat × Nat) :=
  allCoords.filter (fun rc => get_board_card rc.1 rc.2 == cardStr card)

/-- `is_position_available`: corners never, otherwise the cell must be EMPTY. -/
def is_position_available (s : GameState) (row col : Nat) : Bool :=
  if get_board_card row col == "XX" then false
  else bget s.board row col == ChipColor.EMPTY

/-- `is_dead_card`: non-jack with every layout occurrence occupied. -/
def is_dead_card (s : GameState) (card : Card) : Bool :=
  if card.is_jack then false
  else (find_card_positions card).all
    (fun rc => !(bget s.board rc.1 rc.2 == ChipColor.EMPTY))

/-- `_is_chip_in_completed_sequence`. -/
def is_chip_in_completed_sequence (s : GameState) (row col : Nat) (player_id : Nat) : Bool :=
  (seqsOf s player_id).any (fun sq => (row, col) ∈ sq)

/-- `get_valid_moves` for `player_id` against the current state. -/
def get_valid_moves (num_players : Nat) (s : GameState) (player_id : Nat) : List Move :=
  (handOf s player_id).flatMap (fun card =>
    if card.is_two_eyed_jack then
      allCoords.filterMap (fun rc =>
        if is_position_available s rc.1 rc.2 then
          some { card := card, row := rc.1, col := rc.2 } else none)
    else if card.is_one_eyed_jack then
      (List.range num_players).flatMap (fun opp_id =>
        if opp_id = player_id then []
        else (chipsOf s opp_id).filterMap (fun rc =>
          if is_chip_in_completed_sequence s rc.1 rc.2 opp_id then none
          else some { card := card, row := rc.1, col := rc.2, is_removal := true }))
    else
      if is_dead_card s card then []
      else (find_card_positions card).filterMap (fun rc =>
        if is_position_available s rc.1 rc.2 then
          some { card := card, row := rc.1, col := rc.2 } else none))

/-- The 4 scan directions of the source. -/
def directions : List (Int × Int) := [(0, 1), (1, 0), (1, 1), (1, -1)]

/-- Collect a list of optional values, failing as soon as one is `none`
(the early-`return None` pattern of the source's cell loops). -/
def optList {α : Type} : List (Option α) → Option (List α)
  | [] => some []
  | o :: rest =>
    match o with
    | none => none
    | some a =>
      match optList rest with
      | none => none
      | some as => some (a :: as)

/-- `_check_sequence_from`: walk 5 cells from a start in a direction; `none`
as soon as a cell is off-board or holds neither the player's color nor WILD. -/
def check_sequence_from (b : List (List ChipColor)) (start_row start_col : Nat)
    (dr dc : Int) (player_color : ChipColor) : Option (List (Nat × Nat)) :=
  optList ((List.range 5).map (fun i =>
    let r : Int := (start_row : Int) + (i : Int) * dr
    let c : Int := (start_col : Int) + (i : Int) * dc
    if 0 ≤ r ∧ r < 10 ∧ 0 ≤ c ∧ c < 10 then
      let cell := bget b r.toNat c.toNat
      if cell == player_color || cell == ChipColor.WILD then some (r.toNat, c.toNat)
      else none
    else none))

/-- `_is_sequence_already_counted`: some recorded sequence has the same
coordinate set. -/
def is_sequence_already_counted (s : GameState) (sq : List (Nat × Nat))
    (player_id : Nat) : Bool :=
  (seqsOf s player_id).any (fun ex => ex.toFinset == sq.toFinset)

/-- Number of shared coordinates of two sequences, as in
`len(set(new_seq) & set(existing))`. -/
def seqOverlap (a b : List (Nat × Nat)) : Nat := (a.toFinset ∩ b.toFinset).card

/-- `_can_add_sequence`: at most one shared chip with every recorded sequence. -/
def can_add_sequence (s : GameState) (new_seq : List (Nat × Nat))
    (player_id : Nat) : Bool :=
  (seqsOf s player_id).all (fun ex => seqOverlap new_seq ex ≤ 1)

/-- One step of the admission loop of `_check_for_sequences`. -/
def add_seq (player_id : Nat) (st : GameState) (sq : List (Nat × Nat)) : GameState :=
  if can_add_sequence st sq player_id then
    { st with sequences := st.sequences.set player_id (seqsOf st player_id ++ [sq]) }
  else st

/-- The candidate collection pass of `_check_for_sequences`: qualifying
windows not already counted, in the source's row/col/direction scan order. -/
def new_sequences (s : GameState) (player_id : Nat) : List (List (Nat × Nat)) :=
  allCoords.flatMap (fun rc =>
    directions.filterMap (fun d =>
      match check_sequence_from s.board rc.1 rc.2 d.1 d.2 (get_chip_color player_id) with
      | none => none
      | some sq =>
        if is_sequence_already_counted s sq player_id then none else some sq))

/-- `_check_for_sequences`: collect candidates, then admit them in order. -/
def check_for_sequences (s : GameState) (player_id : Nat) : GameState :=
  (new_sequences s player_id).foldl (add_seq player_id) s

/-- `deck.pop()`: the last element together with the remaining deck. -/
def popLast (l : List Card) : Option (Card × List Card) :=
  match l.getLast? with
  | none => none
  | some c => some (c, l.dropLast)

/-- The chip-mutation block of `make_move`: a removal scans the opponents for
one whose chip set holds the target (returning `False` = `none` when there is
none); a placement unconditionally overwrites the cell with the mover's color. -/
def apply_chip (num_players : Nat) (s : GameState) (move : Move) : Option GameState :=
  if move.is_removal then
    match (List.range num_players).find? (fun opp =>
        !(opp == s.current_player) && (chipsOf s opp).contains (move.row, move.col)) with
    | none => none
    | some opp => some { s with
        board := bset s.board move.row move.col ChipColor.EMPTY,
        chips_on_board :=
          s.chips_on_board.set opp ((chipsOf s opp).erase (move.row, move.col)) }
  else
    some { s with
      board := bset s.board move.row move.col (get_chip_color s.current_player),
      chips_on_board := s.chips_on_board.set s.current_player
        (setAdd (chipsOf s s.current_player) (move.row, move.col)) }

/-- The hand-to-discard step of `make_move`. -/
def discard_card (s : GameState) (player_id : Nat) (card : Card) : GameState :=
  { s with
    player_hands := s.player_hands.set player_id ((handOf s player_id).erase card),
    discard_pile := s.discard_pile ++ [card] }

/-- The replacement draw of `make_move`: one card off the deck end into the
mover's hand when the deck is nonempty. -/
def draw_card (s : GameState) (player_id : Nat) : GameState :=
  match popLast s.deck with
  | none => s
  | some cd => { s with
      deck := cd.2,
      player_hands := s.player_hands.set player_id (handOf s player_id ++ [cd.1]) }

/-- The card bookkeeping of `make_move`: played card from hand to discard,
then one replacement draw from the deck end when the deck is nonempty. -/
def discard_and_draw (s : GameState) (player_id : Nat) (card : Card) : GameState :=
  draw_card (discard_card s player_id card) player_id

/-- The detector invocation of `make_move`: only after placements. -/
def update_sequences (s : GameState) (player_id : Nat) (is_removal : Bool) : GameState :=
  if is_removal then s else check_for_sequences s player_id

/-- The win check of `make_move`. -/
def update_winner (sequences_to_win : Nat) (s : GameState) (player_id : Nat) : GameState :=
  if sequences_to_win ≤ (seqsOf s player_id).length then { s with winner := some player_id }
  else s

/-- The turn advance of `make_move`. -/
def advance_turn (num_players : Nat) (s : GameState) : GameState :=
  { s with
    turn_number := s.turn_number + 1,
    current_player := (s.current_player + 1) % num_players }

/-- `make_move`, as a function into `Option GameState` (`none` = `False`).
The failure paths of the source return before any mutation, so returning
`none` models "state unchanged" exactly. -/
def make_move (num_players sequences_to_win : Nat) (s : GameState) (move : Move) :
    Option GameState :=
  let player_id := s.current_player
  if move.card ∈ handOf s player_id then
    match apply_chip num_players s move with
    | none => none
    | some s1 =>
      some (advance_turn num_players
        (update_winner sequences_to_win
          (update_sequences (discard_and_draw s1 player_id move.card) player_id move.is_removal)
          player_id))
  else none

/-- `is_game_over`: winner set, or no player has a legal move. -/
def is_game_over (num_players : Nat) (s : GameState) : Bool :=
  if s.winner.isSome then true
  else (List.range num_players).all (fun p => (get_valid_moves num_players s p).isEmpty)

def SUITS : List String := ["S", "H", "D", "C"]
def RANKS : List String := ["A", "2", "3", "4", "5", "6", "7", "8", "9", "10", "Q", "K"]

/-- `create_full_deck` / one pass of the deck-building loop of the setup code:
for each suit, the twelve non-jack ranks then the jack. -/
def create_full_deck : List Card :=
  SUITS.flatMap (fun suit => RANKS.map (fun r => ⟨r, suit⟩) ++ [⟨"J", suit⟩])

/-- The 104-card double deck built by the setup code before shuffling. -/
def double_deck : List Card := create_full_deck ++ create_full_deck

/-- `cards_per_player.get(num_players, 7)`. -/
def hand_size_for (num_players : Nat) : Nat :=
  if num_players = 2 then 7 else if num_players = 3 then 6
  else if num_players = 4 then 6 else if num_players = 6 then 5
  else if num_players = 8 then 4 else if num_players = 9 then 4
  else if num_players = 10 then 3 else if num_players = 12 then 3 else 7

/-- `k` successive `deck.pop()` calls: the popped cards in pop order and the
remaining deck.  (The setup code never pops an empty deck; popping an empty
deck here stops early where Python would raise.) -/
def pop_many : Nat → List Card → List Card × List Card
  | 0, d => ([], d)
  | k + 1, d =>
    match popLast d with
    | none => ([], d)
    | some cd =>
      let rest := pop_many k cd.2
      (cd.1 :: rest.1, rest.2)

/-- The dealing loop: each player in order pops `hand_size` cards. -/
def deal_players (num_players hand_size : Nat) (deck : List Card) :
    List (List Card) × List Card :=
  (List.range num_players).foldl (fun acc _ =>
    let hd := pop_many hand_size acc.2
    (acc.1 ++ [hd.1], hd.2)) ([], deck)

/-- The board built by the setup code: all EMPTY, then the four corners WILD. -/
def init_board : List (List ChipColor) :=
  let b := List.replicate 10 (List.replicate 10 ChipColor.EMPTY)
  bset (bset (bset (bset b 0 0 ChipColor.WILD) 0 9 ChipColor.WILD) 9 0 ChipColor.WILD)
    9 9 ChipColor.WILD

/-- `initialize_game`, parameterized by the outcome `shuffled` of
`random.shuffle` on the double deck. -/
def initGame (num_players : Nat) (shuffled : List Card) : GameState :=
  { board := init_board,
    player_hands := (deal_players num_players (hand_size_for num_players) shuffled).1,
    deck := (deal_players num_players (hand_size_for num_players) shuffled).2,
    discard_pile := [],
    current_player := 0,
    sequences := List.replicate num_players [],
    chips_on_board := List.replicate num_players [],
    winner := none,
    turn_number := 0 }

/-- `sequences_to_win`: 2 in a 2-player game, else 1. -/
def win_threshold (num_players : Nat) : Nat := if num_players = 2 then 2 else 1

/-- The states reachable through the public interface: `initialize_game` (with
an arbitrary shuffle) followed by successful `make_move` calls on moves drawn
from `get_valid_moves` for the player to move. -/
inductive Reachable (num_players : Nat) : GameState → Prop where
  | init (shuffled : List Card) (hperm : List.Perm shuffled double_deck) :
      Reachable num_players (initGame num_players shuffled)
  | step (s s' : GameState) (m : Move) (hr : Reachable num_players s)
      (hm : m ∈ get_valid_moves num_players s s.current_player)
      (hmk : make_move num_players (win_threshold num_players) s m = some s') :
      Reachable num_players s'

/-- Cards held outside the board: deck, all hands, and the discard pile. -/
def card_count (s : GameState) : Nat :=
  s.deck.length + (s.player_hands.map List.length).sum + s.discard_pile.length

/-- Player chips on the board, counted once per chip. -/
def chip_total (s : GameState) : Nat := (s.chips_on_board.map List.length).sum

/-- The quantity the card-conservation claim asserts to be 104:
`|deck| + Σ|hand| + |discard| + |chips on board|`. -/
def claimed_sum (s : GameState) : Nat := card_count s + chip_total s

/-- The board grid is a 10x10 list of lists (as every state built by the
engine is). -/
def BoardWf (b : List (List ChipColor)) : Prop :=
  b.length = 10 ∧ ∀ row ∈ b, row.length = 10

/-- The per-player chip sets agree with the board colors: every recorded chip
of player `q` sits on a cell showing `q`'s color. -/
def ChipsConsistent (num_players : Nat) (s : GameState) : Prop :=
  ∀ q ∈ List.range num_players, ∀ rc ∈ chipsOf s q,
    bget s.board rc.1 rc.2 = get_chip_color q

/-- A board obtained from the empty starting board by placing some chips. -/
def board_with (cs : List (Nat × Nat × ChipColor)) : List (List ChipColor) :=
  cs.foldl (fun b x => bset b x.1 x.2.1 x.2.2) init_board

/-- Concrete input for C1: the identity shuffle followed by player 0 playing
the two-eyed jack J♣ (the first card dealt) onto the empty cell (0, 1). -/
def c1_move : Move := ⟨⟨"J", "C"⟩, 0, 1, false⟩

def c1_start : GameState := initGame 2 double_deck

def c1_state : GameState := (make_move 2 2 c1_start c1_move).getD c1_start

/-- Concrete input for C4: player 0 holds a one-eyed jack J♠ and plays it as a
removal aimed at the empty cell (2, 2). -/
def c4_state : GameState :=
  { board := init_board,
    player_hands := [[⟨"J", "S"⟩], [⟨"A", "H"⟩]],
    deck := [], discard_pile := [], current_player := 0,
    sequences := [[], []], chips_on_board := [[], []],
    winner := none, turn_number := 0 }

def c4_move : Move := ⟨⟨"J", "S"⟩, 2, 2, true⟩

/-- Concrete input for C8: the winner is already set, yet player 0 still holds
A♠ and plays it on the empty cell (2, 1). -/
def c8_state : GameState :=
  { board := init_board,
    player_hands := [[⟨"A", "S"⟩], [⟨"A", "H"⟩]],
    deck := [], discard_pile := [], current_player := 0,
    sequences := [[], []], chips_on_board := [[], []],
    winner := some 0, turn_number := 10 }

def c8_move : Move := ⟨⟨"A", "S"⟩, 2, 1, false⟩

/-- Concrete input for C10: placement of 7♣ (held by player 0 after the
identity shuffle) onto the corner cell (0, 0), which is occupied by WILD. -/
def c10_move : Move := ⟨⟨"7", "C"⟩, 0, 0, false⟩

end SequenceGame

namespace SequenceBot

open SequenceGame

/-- The flag dictionary built by `_analyze_line`. -/
structure LineInfo where
  can_complete_sequence : Bool
  extends_4 : Bool
  extends_3 : Bool
  extends_2 : Bool
  new_potential : Bool
  blocks_win : Bool
  blocks_4 : Bool
  blocks_3 : Bool
  blocks_2 : Bool
deriving DecidableEq, Repr

/-- The strategy weight table of `_get_strategy_weights`. -/
structure Weights where
  win_sequence : Int
  extend_4 : Int
  extend_3 : Int
  extend_2 : Int
  new_potential : Int
  corner_use : Int
  block_win : Int
  block_4 : Int
  block_3 : Int
  block_2 : Int
  jack_save : Int
  center_bonus : Int
  flexibility : Int
deriving DecidableEq, Repr

def aggressive_weights : Weights :=
  ⟨10000, 500, 100, 30, 15, 25, 5000, 300, 60, 15, 10, 5, 8⟩

def defensive_weights : Weights :=
  ⟨10000, 400, 80, 25, 10, 20, 8000, 500, 100, 30, 15, 3, 5⟩

def balanced_weights : Weights :=
  ⟨10000, 450, 90, 28, 12, 22, 6000, 400, 80, 20, 12, 4, 7⟩

/-- The window offsets `range(-4, 1)` of the sliding 5-cell scan. -/
def offsets : List Int := [-4, -3, -2, -1, 0]

/-- The 5 cells of the window at `offset` through `(row, col)` in a direction,
or `none` when any of them is off the board. -/
def window_cells (row col : Nat) (dr dc : Int) (off : Int) :
    Option (List (Nat × Nat)) :=
  optList ((List.range 5).map (fun i =>
    let r : Int := (row : Int) + (off + (i : Int)) * dr
    let c : Int := (col : Int) + (off + (i : Int)) * dc
    if 0 ≤ r ∧ r < 10 ∧ 0 ≤ c ∧ c < 10 then some (r.toNat, c.toNat) else none))

/-- The per-window tallies of `_analyze_line` (`target_in` is the source's
`target_is_empty`, set whenever the loop meets the move's own cell). -/
structure WindowCounts where
  our : Nat
  opp : Nat
  empty : Nat
  wild : Nat
  target_in : Bool
deriving DecidableEq, Repr

/-- One iteration of the tally loop of `_analyze_line`. -/
def count_cell (b : List (List ChipColor)) (row col : Nat) (pc : ChipColor)
    (w : WindowCounts) (rc : Nat × Nat) : WindowCounts :=
  if rc = (row, col) then { w with target_in := true }
  else
    let cell := bget b rc.1 rc.2
    if cell = pc then { w with our := w.our + 1 }
    else if cell = ChipColor.WILD then { w with wild := w.wild + 1 }
    else if cell = ChipColor.EMPTY then { w with empty := w.empty + 1 }
    else { w with opp := w.opp + 1 }

/-- Tally one window. -/
def count_window (b : List (List ChipColor)) (row col : Nat) (pc : ChipColor)
    (cells : List (Nat × Nat)) : WindowCounts :=
  cells.foldl (count_cell b row col pc) ⟨0, 0, 0, 0, false⟩

/-- The tallies of the window at an offset, `none` when off-board. -/
def window_stats (b : List (List ChipColor)) (row col : Nat) (pc : ChipColor)
    (dr dc : Int) (off : Int) : Option WindowCounts :=
  (window_cells row col dr dc off).map (count_window b row col pc)

/-- Offensive window condition of `_analyze_line` for a friendly count of
exactly `k`: no opponent chip, window meets the target, `our + wild = k`. -/
def off_offense (b : List (List ChipColor)) (row col : Nat) (pc : ChipColor)
    (dr dc : Int) (k : Nat) (off : Int) : Bool :=
  match window_stats b row col pc dr dc off with
  | none => false
  | some w => w.opp == 0 && w.target_in && (w.our + w.wild == k)

/-- The `total_friendly >= 1` fallthrough branch of `_analyze_line` (reached
only when the friendly count is not 4, 3 or 2). -/
def off_new_potential (b : List (List ChipColor)) (row col : Nat) (pc : ChipColor)
    (dr dc : Int) (off : Int) : Bool :=
  match window_stats b row col pc dr dc off with
  | none => false
  | some w =>
    w.opp == 0 && w.target_in && !(w.our + w.wild == 4) && !(w.our + w.wild == 3) &&
      !(w.our + w.wild == 2) && decide (1 ≤ w.our + w.wild)

/-- The `blocks_win`/`blocks_4` window condition of `_analyze_line`: no own
chip, target met, 4 opponent-or-Wild chips, no empty cell besides the target. -/
def off_block_win (b : List (List ChipColor)) (row col : Nat) (pc : ChipColor)
    (dr dc : Int) (off : Int) : Bool :=
  match window_stats b row col pc dr dc off with
  | none => false
  | some w => w.our == 0 && w.target_in && (w.opp + w.wild == 4) && (w.empty == 0)

/-- The `blocks_3`/`blocks_2` window conditions of `_analyze_line`: no own
chip, target met, exactly `k` opponent-or-Wild chips. -/
def off_block (b : List (List ChipColor)) (row col : Nat) (pc : ChipColor)
    (dr dc : Int) (k : Nat) (off : Int) : Bool :=
  match window_stats b row col pc dr dc off with
  | none => false
  | some w => w.our == 0 && w.target_in && (w.opp + w.wild == k)

/-- One offset iteration of `_analyze_line`: each flag, once true, stays true
(`result[...] = True` assignments under the source's `if`/`elif` conditions;
an off-board window leaves every flag alone). -/
def line_flag_step (b : List (List ChipColor)) (row col : Nat) (dr dc : Int)
    (pc : ChipColor) (res : LineInfo) (off : Int) : LineInfo :=
  { can_complete_sequence := res.can_complete_sequence || off_offense b row col pc dr dc 4 off,
    extends_4 := res.extends_4 || off_offense b row col pc dr dc 4 off,
    extends_3 := res.extends_3 || off_offense b row col pc dr dc 3 off,
    extends_2 := res.extends_2 || off_offense b row col pc dr dc 2 off,
    new_potential := res.new_potential || off_new_potential b row col pc dr dc off,
    blocks_win := res.blocks_win || off_block_win b row col pc dr dc off,
    blocks_4 := res.blocks_4 || off_block_win b row col pc dr dc off,
    blocks_3 := res.blocks_3 || off_block b row col pc dr dc 3 off,
    blocks_2 := res.blocks_2 || off_block b row col pc dr dc 2 off }

/-- `_analyze_line`: slide the 5-window across the offsets `-4..0`. -/
def analyze_line (b : List (List ChipColor)) (row col : Nat) (dr dc : Int)
    (pc : ChipColor) : LineInfo :=
  offsets.foldl (line_flag_step b row col dr dc pc)
    ⟨false, false, false, false, false, false, false, false, false⟩

/-- `_is_corner_adjacent`. -/
def corners : List (Nat × Nat) := [(0, 0), (0, 9), (9, 0), (9, 9)]

def is_corner_adjacent (row col : Nat) : Bool :=
  corners.any (fun c =>
    decide (((row : Int) - (c.1 : Int)).natAbs ≤ 1) &&
    decide (((col : Int) - (c.2 : Int)).natAbs ≤ 1) &&
    !((row, col) == c))

/-- Accumulator of the direction loop of `_evaluate_placement_offensive`. -/
structure OffAcc where
  score : Int
  creates : Bool
  pot : Nat
deriving DecidableEq, Repr

/-- One direction of the offensive scan. -/
def offense_dir_step (b : List (List ChipColor)) (row col : Nat) (pc : ChipColor)
    (w : Weights) (acc : OffAcc) (d : Int × Int) : OffAcc :=
  let li := analyze_line b row col d.1 d.2 pc
  let acc := if li.can_complete_sequence then
      { acc with score := acc.score + w.win_sequence, creates := true } else acc
  if li.extends_4 then { acc with score := acc.score + w.extend_4, creates := true }
  else if li.extends_3 then { acc with score := acc.score + w.extend_3, pot := acc.pot + 3 }
  else if li.extends_2 then { acc with score := acc.score + w.extend_2, pot := acc.pot + 2 }
  else if li.new_potential then { acc with score := acc.score + w.new_potential, pot := acc.pot + 1 }
  else acc

/-- The direction loop of `_evaluate_placement_offensive` (the part of the
offensive score that comes from line analysis, before the positional bonuses). -/
def offensive_line (s : GameState) (player_id : Nat) (m : Move) (w : Weights) : OffAcc :=
  directions.foldl (offense_dir_step s.board m.row m.col (get_chip_color player_id) w)
    ⟨0, false, 0⟩

/-- Twice the source's center distance `abs(row - 4.5) + abs(col - 4.5)`:
each term `|2·x - 9|` is an odd natural, so the sum is an even integer and the
source's distance is the integer `center_dist_x2 / 2`.  The source's float
arithmetic is exact here, so the integer model below is too: the condition
`center_dist < 3` is `center_dist_x2 < 6`, and the bonus
`center_bonus * (3 - center_dist)` is `center_bonus * (6 - center_dist_x2) / 2`
(an exact division, the factor being even). -/
def center_dist_x2 (row col : Nat) : Int :=
  |2 * (row : Int) - 9| + |2 * (col : Int) - 9|

/-- `_evaluate_placement_offensive`: line score plus corner-adjacency bonus,
center-proximity bonus and flexibility bonus; returns
(score, creates_sequence, sequence_potential). -/
def evaluate_placement_offensive (s : GameState) (player_id : Nat) (m : Move)
    (w : Weights) : Int × Bool × Nat :=
  let base := offensive_line s player_id m w
  let score1 := if is_corner_adjacent m.row m.col then base.score + w.corner_use else base.score
  let score2 := if center_dist_x2 m.row m.col < 6 then
      score1 + w.center_bonus * (6 - center_dist_x2 m.row m.col) / 2 else score1
  let score3 := if 3 ≤ base.pot then score2 + w.flexibility * (base.pot : Int) else score2
  (score3, base.creates, base.pot)

/-- One direction of the defensive scan of `_evaluate_placement_defensive`. -/
def defense_dir_step (b : List (List ChipColor)) (row col : Nat) (pc : ChipColor)
    (w : Weights) (acc : Int × Bool) (d : Int × Int) : Int × Bool :=
  let li := analyze_line b row col d.1 d.2 pc
  if li.blocks_win then (acc.1 + w.block_win, true)
  else if li.blocks_4 then (acc.1 + w.block_4, true)
  else if li.blocks_3 then (acc.1 + w.block_3, true)
  else if li.blocks_2 then (acc.1 + w.block_2, true)
  else acc

/-- `_evaluate_placement_defensive`: scan every opponent's color through every
direction; returns (score, blocks_opponent). -/
def evaluate_placement_defensive (num_players : Nat) (s : GameState) (player_id : Nat)
    (m : Move) (w : Weights) : Int × Bool :=
  (List.range num_players).foldl (fun acc opp_id =>
    if opp_id = player_id then acc
    else directions.foldl
      (defense_dir_step s.board m.row m.col (get_chip_color opp_id) w) acc)
    (0, false)

/-- The window tallies the defensive claim C2 speaks of, counted directly from
its words: among the window's cells other than the move's target, the number
holding the bot's own color and the number holding the opponent's color or
WILD; `none` when the window leaves the board. -/
def claimed_block_counts (b : List (List ChipColor)) (row col : Nat)
    (own oppc : ChipColor) (dr dc : Int) (off : Int) : Option (Nat × Nat) :=
  (window_cells row col dr dc off).map (fun cells =>
    ((cells.filter (fun rc => rc ≠ (row, col) && bget b rc.1 rc.2 == own)).length,
     (cells.filter (fun rc => rc ≠ (row, col) &&
        (bget b rc.1 rc.2 == oppc || bget b rc.1 rc.2 == ChipColor.WILD))).length))

/-- The weight claim C2 assigns to a single defensive window: block-win for a
window with 0 of the bot's own chips and exactly 4 opponent-or-Wild chips and
the move's cell empty, block-3 for 3 such chips, block-2 for 2. -/
def window_block_weight (b : List (List ChipColor)) (row col : Nat)
    (own oppc : ChipColor) (dr dc : Int) (w : Weights) (off : Int) : Int :=
  match claimed_block_counts b row col own oppc dr dc off with
  | none => 0
  | some oc =>
    if oc.1 = 0 ∧ bget b row col = ChipColor.EMPTY then
      if oc.2 = 4 then w.block_win
      else if oc.2 = 3 then w.block_3
      else if oc.2 = 2 then w.block_2
      else 0
    else 0

/-- The defensive score claim C2 describes: every qualifying window of every
direction and every opponent contributes its own weight. -/
def claimed_defensive_sum (num_players : Nat) (s : GameState) (player_id : Nat)
    (m : Move) (w : Weights) : Int :=
  (((List.range num_players).filter (fun o => o ≠ player_id)).map (fun opp_id =>
    (directions.map (fun d =>
      (offsets.map
        (window_block_weight s.board m.row m.col (get_chip_color player_id)
          (get_chip_color opp_id) d.1 d.2 w)).sum)).sum)).sum

/-- The weight claim C9 assigns to a single offensive window (win-sequence and
extend-4 weights for a 4-friendly window, extend-3 for 3, extend-2 for 2,
new-potential for a remaining window with at least one friendly chip). -/
def window_offense_weight (b : List (List ChipColor)) (row col : Nat) (pc : ChipColor)
    (dr dc : Int) (w : Weights) (off : Int) : Int :=
  if off_offense b row col pc dr dc 4 off then w.win_sequence + w.extend_4
  else if off_offense b row col pc dr dc 3 off then w.extend_3
  else if off_offense b row col pc dr dc 2 off then w.extend_2
  else if off_new_potential b row col pc dr dc off then w.new_potential
  else 0

/-- The offensive line score claim C9 describes: every qualifying window of
every direction contributes its own weight. -/
def claimed_offensive_sum (s : GameState) (player_id : Nat) (m : Move) (w : Weights) : Int :=
  (directions.map (fun d =>
    (offsets.map
      (window_offense_weight s.board m.row m.col (get_chip_color player_id) d.1 d.2 w)).sum)).sum

/-- The single per-direction offensive contribution that
`_evaluate_placement_offensive` actually adds (the amended claim C9): the
win-sequence weight when some window of the direction reaches 4 friendly
chips, plus exactly one of the extend/new-potential weights chosen by the
source's `elif` precedence over the direction's boolean flags. -/
def dir_offense_weight (b : List (List ChipColor)) (row col : Nat) (pc : ChipColor)
    (w : Weights) (d : Int × Int) : Int :=
  (if offsets.any (off_offense b row col pc d.1 d.2 4) then w.win_sequence else 0) +
  (if offsets.any (off_offense b row col pc d.1 d.2 4) then w.extend_4
   else if offsets.any (off_offense b row col pc d.1 d.2 3) then w.extend_3
   else if offsets.any (off_offense b row col pc d.1 d.2 2) then w.extend_2
   else if offsets.any (off_new_potential b row col pc d.1 d.2) then w.new_potential
   else 0)

/-- Concrete input for C2: the opponent (GREEN, player 1) has 4 in a row at
(2,2)..(2,5), completable at the empty cell (2,6); the bot is player 0 and
holds 6♦, whose layout cell is (2,6). -/
def c2_state : GameState :=
  { board := board_with
      [(2, 2, ChipColor.GREEN), (2, 3, ChipColor.GREEN),
       (2, 4, ChipColor.GREEN), (2, 5, ChipColor.GREEN)],
    player_hands := [[⟨"6", "D"⟩], [⟨"A", "H"⟩]],
    deck := [], discard_pile := [], current_player := 0,
    sequences := [[], []],
    chips_on_board := [[], [(2, 2), (2, 3), (2, 4), (2, 5)]],
    winner := none, turn_number := 0 }

def c2_move : Move := ⟨⟨"6", "D"⟩, 2, 6, false⟩

/-- Concrete input for C9: the bot (BLUE, player 0) has chips at (2,2), (2,3),
(2,7) and (2,8) and evaluates a placement on (2,6): four distinct horizontal
windows through (2,6) each hold exactly 2 friendly chips. -/
def c9_state : GameState :=
  { board := board_with
      [(2, 2, ChipColor.BLUE), (2, 3, ChipColor.BLUE),
       (2, 7, ChipColor.BLUE), (2, 8, ChipColor.BLUE)],
    player_hands := [[⟨"6", "D"⟩], [⟨"A", "H"⟩]],
    deck := [], discard_pile := [], current_player := 0,
    sequences := [[], []],
    chips_on_board := [[(2, 2), (2, 3), (2, 7), (2, 8)], []],
    winner := none, turn_number := 0 }

def c9_move : Move := ⟨⟨"6", "D"⟩, 2, 6, false⟩

/-- Concrete input for C7: like `c2_state` (GREEN chips at (2,2)..(2,5), none
in a recorded sequence) but player 0 holds the one-eyed jack J♠, so the valid
moves are removals of those chips. -/
def c7_state : GameState :=
  { c2_state with player_hands := [[⟨"J", "S"⟩], [⟨"A", "H"⟩]] }

def c7_move : Move := ⟨⟨"J", "S"⟩, 2, 2, true⟩

end SequenceBot

/-! ### List utilities -/

namespace SequenceGame

theorem mem_getD_lt {α : Type} {l : List (List α)} {i : Nat} {a : α}
    (h : a ∈ l.getD i []) : i < l.length := by
  by_contra hge
  rw [List.getD_eq_default _ _ (by omega)] at h
  exact absurd h (List.not_mem_nil a)

theorem getD_set_self {α : Type} {l : List α} {i : Nat} {x d : α} (h : i < l.length) :
    (l.set i x).getD i d = x := by
  simp [List.getD, List.getElem?_set_self', h]

theorem getD_set_ne {α : Type} {l : List α} {i j : Nat} {x d : α} (h : i ≠ j) :
    (l.set i x).getD j d = l.getD j d := by
  simp [List.getD, List.getElem?_set_ne h]

theorem sum_map_length_set {α : Type} (l : List (List α)) (i : Nat) (x : List α)
    (h : i < l.length) :
    ((l.set i x).map List.length).sum + (l.getD i []).length
      = (l.map List.length).sum + x.length := by
  induction l generalizing i with
  | nil => simp at h
  | cons a t ih =>
    cases i with
    | zero => simp [List.getD_cons_zero]; omega
    | succ n =>
      simp only [List.set_cons_succ, List.map_cons, List.sum_cons, List.getD_cons_succ]
      have := ih n (by simpa using h)
      omega

theorem popLast_none {l : List Card} : popLast l = none ↔ l = [] := by
  unfold popLast
  cases hl : l.getLast? with
  | none => simpa using hl
  | some x =>
    simp only [reduceCtorEq, false_iff]
    intro he
    subst he
    simp at hl

theorem popLast_some {l : List Card} {c : Card} {d : List Card}
    (h : popLast l = some (c, d)) : d.length + 1 = l.length := by
  unfold popLast at h
  cases hl : l.getLast? with
  | none => rw [hl] at h; exact absurd h (by simp)
  | some x =>
    rw [hl] at h
    injection h with h
    injection h with hc hd
    subst hd
    have hne : l ≠ [] := by intro he; subst he; simp at hl
    have hp : 0 < l.length := List.length_pos.mpr hne
    rw [List.length_dropLast]
    omega

theorem getD_replicate_nil {α : Type} (n i : Nat) :
    (List.replicate n ([] : List α)).getD i [] = [] := by
  rcases Nat.lt_or_ge i n with h | h
  · simp [List.getD, List.getElem?_replicate, h]
  · rw [List.getD_eq_default]
    simpa using h

/-! ### Pipeline-stage lemmas for `make_move` -/

theorem make_move_eq_some {np stw : Nat} {s : GameState} {m : Move} {s' : GameState} :
    make_move np stw s m = some s' ↔
      m.card ∈ handOf s s.current_player ∧
      ∃ s1, apply_chip np s m = some s1 ∧
        s' = advance_turn np (update_winner stw
          (update_sequences (discard_and_draw s1 s.current_player m.card)
            s.current_player m.is_removal) s.current_player) := by
  unfold make_move
  by_cases h : m.card ∈ handOf s s.current_player
  · simp only [h, if_true, true_and]
    cases hac : apply_chip np s m with
    | none => simp
    | some s1 => simp [eq_comm]
  · simp [h]

theorem make_move_eq_none {np stw : Nat} {s : GameState} {m : Move} :
    make_move np stw s m = none ↔
      m.card ∉ handOf s s.current_player ∨
        (m.card ∈ handOf s s.current_player ∧ apply_chip np s m = none) := by
  unfold make_move
  by_cases h : m.card ∈ handOf s s.current_player
  · simp only [h, if_true]
    cases hac : apply_chip np s m with
    | none => simp [h]
    | some s1 => simp [h]
  · simp [h]

theorem apply_chip_placement {np : Nat} {s : GameState} {m : Move}
    (h : m.is_removal = false) :
    apply_chip np s m = some { s with
      board := bset s.board m.row m.col (get_chip_color s.current_player),
      chips_on_board := s.chips_on_board.set s.current_player
        (setAdd (chipsOf s s.current_player) (m.row, m.col)) } := by
  unfold apply_chip
  rw [h]
  simp

theorem apply_chip_eq_none {np : Nat} {s : GameState} {m : Move} :
    apply_chip np s m = none ↔
      m.is_removal = true ∧ (List.range np).find? (fun opp =>
        !(opp == s.current_player) && (chipsOf s opp).contains (m.row, m.col)) = none := by
  unfold apply_chip
  by_cases hrem : m.is_removal
  · simp only [hrem, if_true, true_and]
    split
    next heq => simpa using heq
    next s1 heq => rw [heq]; simp
  · simp [hrem]

theorem apply_chip_fields {np : Nat} {s : GameState} {m : Move} {s1 : GameState}
    (h : apply_chip np s m = some s1) :
    s1.player_hands = s.player_hands ∧ s1.deck = s.deck ∧
    s1.discard_pile = s.discard_pile ∧ s1.current_player = s.current_player ∧
    s1.sequences = s.sequences ∧ s1.winner = s.winner ∧
    s1.turn_number = s.turn_number := by
  unfold apply_chip at h
  split at h
  · split at h
    · exact absurd h (by simp)
    · injection h with h
      subst h
      exact ⟨rfl, rfl, rfl, rfl, rfl, rfl, rfl⟩
  · injection h with h
    subst h
    exact ⟨rfl, rfl, rfl, rfl, rfl, rfl, rfl⟩

theorem draw_card_fields (s : GameState) (pid : Nat) :
    (draw_card s pid).board = s.board ∧
    (draw_card s pid).chips_on_board = s.chips_on_board ∧
    (draw_card s pid).sequences = s.sequences ∧
    (draw_card s pid).discard_pile = s.discard_pile ∧
    (draw_card s pid).current_player = s.current_player ∧
    (draw_card s pid).winner = s.winner ∧
    (draw_card s pid).turn_number = s.turn_number := by
  unfold draw_card
  split <;> exact ⟨rfl, rfl, rfl, rfl, rfl, rfl, rfl⟩

theorem discard_and_draw_fields (s : GameState) (pid : Nat) (card : Card) :
    (discard_and_draw s pid card).board = s.board ∧
    (discard_and_draw s pid card).chips_on_board = s.chips_on_board ∧
    (discard_and_draw s pid card).sequences = s.sequences ∧
    (discard_and_draw s pid card).current_player = s.current_player ∧
    (discard_and_draw s pid card).winner = s.winner ∧
    (discard_and_draw s pid card).turn_number = s.turn_number := by
  unfold discard_and_draw
  have h := draw_card_fields (discard_card s pid card) pid
  exact ⟨h.1, h.2.1, h.2.2.1, h.2.2.2.2.1, h.2.2.2.2.2.1, h.2.2.2.2.2.2⟩

theorem add_seq_fields (p : Nat) (st : GameState) (sq : List (Nat × Nat)) :
    (add_seq p st sq).board = st.board ∧
    (add_seq p st sq).player_hands = st.player_hands ∧
    (add_seq p st sq).deck = st.deck ∧
    (add_seq p st sq).discard_pile = st.discard_pile ∧
    (add_seq p st sq).chips_on_board = st.chips_on_board ∧
    (add_seq p st sq).current_player = st.current_player ∧
    (add_seq p st sq).winner = st.winner ∧
    (add_seq p st sq).turn_number = st.turn_number := by
  unfold add_seq
  split <;> exact ⟨rfl, rfl, rfl, rfl, rfl, rfl, rfl, rfl⟩

theorem foldl_add_seq_fields (p : Nat) (cs : List (List (Nat × Nat))) (st : GameState) :
    (cs.foldl (add_seq p) st).board = st.board ∧
    (cs.foldl (add_seq p) st).player_hands = st.player_hands ∧
    (cs.foldl (add_seq p) st).deck = st.deck ∧
    (cs.foldl (add_seq p) st).discard_pile = st.discard_pile ∧
    (cs.foldl (add_seq p) st).chips_on_board = st.chips_on_board ∧
    (cs.foldl (add_seq p) st).current_player = st.current_player ∧
    (cs.foldl (add_seq p) st).winner = st.winner ∧
    (cs.foldl (add_seq p) st).turn_number = st.turn_number := by
  induction cs generalizing st with
  | nil => exact ⟨rfl, rfl, rfl, rfl, rfl, rfl, rfl, rfl⟩
  | cons c t ih =>
    simp only [List.foldl_cons]
    have h1 := add_seq_fields p st c
    have h2 := ih (add_seq p st c)
    exact ⟨h2.1.trans h1.1, h2.2.1.trans h1.2.1, h2.2.2.1.trans h1.2.2.1,
      h2.2.2.2.1.trans h1.2.2.2.1, h2.2.2.2.2.1.trans h1.2.2.2.2.1,
      h2.2.2.2.2.2.1.trans h1.2.2.2.2.2.1, h2.2.2.2.2.2.2.1.trans h1.2.2.2.2.2.2.1,
      h2.2.2.2.2.2.2.2.trans h1.2.2.2.2.2.2.2⟩

theorem check_for_sequences_fields (s : GameState) (p : Nat) :
    (check_for_sequences s p).board = s.board ∧
    (check_for_sequences s p).player_hands = s.player_hands ∧
    (check_for_sequences s p).deck = s.deck ∧
    (check_for_sequences s p).discard_pile = s.discard_pile ∧
    (check_for_sequences s p).chips_on_board = s.chips_on_board ∧
    (check_for_sequences s p).current_player = s.current_player ∧
    (check_for_sequences s p).winner = s.winner ∧
    (check_for_sequences s p).turn_number = s.turn_number :=
  foldl_add_seq_fields p (new_sequences s p) s

theorem update_sequences_fields (s : GameState) (p : Nat) (r : Bool) :
    (update_sequences s p r).board = s.board ∧
    (update_sequences s p r).player_hands = s.player_hands ∧
    (update_sequences s p r).deck = s.deck ∧
    (update_sequences s p r).discard_pile = s.discard_pile ∧
    (update_sequences s p r).chips_on_board = s.chips_on_board ∧
    (update_sequences s p r).current_player = s.current_player ∧
    (update_sequences s p r).winner = s.winner ∧
    (update_sequences s p r).turn_number = s.turn_number := by
  unfold update_sequences
  split
  · exact ⟨rfl, rfl, rfl, rfl, rfl, rfl, rfl, rfl⟩
  · exact check_for_sequences_fields s p

theorem update_winner_fields (stw : Nat) (s : GameState) (p : Nat) :
    (update_winner stw s p).board = s.board ∧
    (update_winner stw s p).player_hands = s.player_hands ∧
    (update_winner stw s p).deck = s.deck ∧
    (update_winner stw s p).discard_pile = s.discard_pile ∧
    (update_winner stw s p).chips_on_board = s.chips_on_board ∧
    (update_winner stw s p).current_player = s.current_player ∧
    (update_winner stw s p).sequences = s.sequences ∧
    (update_winner stw s p).turn_number = s.turn_number := by
  unfold update_winner
  split <;> exact ⟨rfl, rfl, rfl, rfl, rfl, rfl, rfl, rfl⟩

theorem update_winner_winner (stw : Nat) (s : GameState) (p : Nat) :
    (update_winner stw s p).winner =
      if stw ≤ (seqsOf s p).length then some p else s.winner := by
  unfold update_winner
  split <;> rfl

/-! ### Card counting through one move -/

theorem card_count_discard_card (s : GameState) (pid : Nat) (card : Card)
    (hmem : card ∈ handOf s pid) :
    card_count (discard_card s pid card) = card_count s := by
  have hlt : pid < s.player_hands.length := mem_getD_lt hmem
  have hpos : 0 < (handOf s pid).length :=
    List.length_pos.mpr (by rintro he; rw [he] at hmem; exact absurd hmem (List.not_mem_nil _))
  have herase : ((handOf s pid).erase card).length = (handOf s pid).length - 1 :=
    List.length_erase_of_mem hmem
  have hsum := sum_map_length_set s.player_hands pid ((handOf s pid).erase card) hlt
  rw [show s.player_hands.getD pid [] = handOf s pid from rfl] at hsum
  unfold card_count discard_card
  simp only [List.length_append, List.length_cons, List.length_nil]
  omega

theorem card_count_draw_card (s : GameState) (pid : Nat)
    (hpid : pid < s.player_hands.length) :
    card_count (draw_card s pid) = card_count s := by
  unfold card_count draw_card
  rcases hpop : popLast s.deck with _ | cd
  · simp
  · have hlen := popLast_some hpop
    simp only []
    have hsum := sum_map_length_set s.player_hands pid (handOf s pid ++ [cd.1]) hpid
    rw [show s.player_hands.getD pid [] = handOf s pid from rfl] at hsum
    simp only [List.length_append, List.length_cons, List.length_nil] at hsum
    omega

theorem card_count_discard_and_draw (s : GameState) (pid : Nat) (card : Card)
    (hmem : card ∈ handOf s pid) :
    card_count (discard_and_draw s pid card) = card_count s := by
  unfold discard_and_draw
  rw [card_count_draw_card _ _ (by
    simpa [discard_card] using mem_getD_lt hmem)]
  exact card_count_discard_card s pid card hmem

theorem card_count_make_move {np stw : Nat} {s : GameState} {m : Move} {s' : GameState}
    (h : make_move np stw s m = some s') : card_count s' = card_count s := by
  rcases make_move_eq_some.mp h with ⟨hmem, s1, hac, rfl⟩
  have hf1 := apply_chip_fields hac
  have hmem1 : m.card ∈ handOf s1 s.current_player := by
    unfold handOf
    rw [hf1.1]
    exact hmem
  have h1 : card_count s1 = card_count s := by
    unfold card_count
    rw [hf1.1, hf1.2.1, hf1.2.2.1]
  have h2 : card_count (discard_and_draw s1 s.current_player m.card) = card_count s1 :=
    card_count_discard_and_draw s1 s.current_player m.card hmem1
  have h3 : ∀ (t : GameState) (r : Bool),
      card_count (update_sequences t s.current_player r) = card_count t := by
    intro t r
    have hf := update_sequences_fields t s.current_player r
    unfold card_count
    rw [hf.2.1, hf.2.2.1, hf.2.2.2.1]
  have h4 : ∀ t : GameState,
      card_count (update_winner stw t s.current_player) = card_count t := by
    intro t
    have hf := update_winner_fields stw t s.current_player
    unfold card_count
    rw [hf.2.1, hf.2.2.1, hf.2.2.2.1]
  have h5 : ∀ t : GameState, card_count (advance_turn np t) = card_count t := fun _ => rfl
  rw [h5, h4, h3, h2, h1]

/-! ### Sequence lists through one move -/

theorem seqsOf_congr {t u : GameState} (q : Nat) (h : t.sequences = u.sequences) :
    seqsOf t q = seqsOf u q := by
  unfold seqsOf
  rw [h]

theorem seqsOf_add_seq_ne (p q : Nat) (st : GameState) (sq : List (Nat × Nat))
    (h : q ≠ p) : seqsOf (add_seq p st sq) q = seqsOf st q := by
  unfold add_seq
  split
  · unfold seqsOf
    exact getD_set_ne (Ne.symm h)
  · rfl

theorem seqsOf_add_seq_self (p : Nat) (st : GameState) (sq : List (Nat × Nat)) :
    seqsOf (add_seq p st sq) p = seqsOf st p ∨
    (can_add_sequence st sq p = true ∧
      seqsOf (add_seq p st sq) p = seqsOf st p ++ [sq]) := by
  unfold add_seq
  split
  next hcan =>
    by_cases hlt : p < st.sequences.length
    · right
      refine ⟨hcan, ?_⟩
      unfold seqsOf
      exact getD_set_self (by simpa using hlt)
    · left
      unfold seqsOf
      rw [List.getD_eq_default _ _ (by simpa using hlt),
        List.getD_eq_default _ _ (by omega)]
  next => left; rfl

theorem seqsOf_foldl_add_seq (p q : Nat) (cs : List (List (Nat × Nat))) (st : GameState) :
    (q ≠ p → seqsOf (cs.foldl (add_seq p) st) q = seqsOf st q) ∧
    ∃ t, seqsOf (cs.foldl (add_seq p) st) p = seqsOf st p ++ t := by
  induction cs generalizing st with
  | nil => exact ⟨fun _ => rfl, [], by simp⟩
  | cons c rest ih =>
    simp only [List.foldl_cons]
    obtain ⟨hne, t, ht⟩ := ih (add_seq p st c)
    refine ⟨fun hq => ?_, ?_⟩
    · rw [hne hq, seqsOf_add_seq_ne p q st c hq]
    · rcases seqsOf_add_seq_self p st c with h | ⟨_, h⟩
      · exact ⟨t, by rw [ht, h]⟩
      · exact ⟨[c] ++ t, by rw [ht, h, List.append_assoc]⟩

theorem seqsOf_check_ne {s : GameState} {p q : Nat} (h : q ≠ p) :
    seqsOf (check_for_sequences s p) q = seqsOf s q :=
  (seqsOf_foldl_add_seq p q (new_sequences s p) s).1 h

theorem seqsOf_check_self (s : GameState) (p : Nat) :
    ∃ t, seqsOf (check_for_sequences s p) p = seqsOf s p ++ t :=
  (seqsOf_foldl_add_seq p p (new_sequences s p) s).2

theorem make_move_winner_seqs {np stw : Nat} {s : GameState} {m : Move} {s' : GameState}
    (h : make_move np stw s m = some s') :
    (∀ q, q ≠ s.current_player → seqsOf s' q = seqsOf s q) ∧
    (∃ t, seqsOf s' s.current_player = seqsOf s s.current_player ++ t) ∧
    s'.winner = (if stw ≤ (seqsOf s' s.current_player).length
      then some s.current_player else s.winner) := by
  rcases make_move_eq_some.mp h with ⟨hmem, s1, hac, rfl⟩
  have hseq1 : s1.sequences = s.sequences := (apply_chip_fields hac).2.2.2.2.1
  have hw1 : s1.winner = s.winner := (apply_chip_fields hac).2.2.2.2.2.1
  have hseqdd : (discard_and_draw s1 s.current_player m.card).sequences = s1.sequences :=
    (discard_and_draw_fields s1 s.current_player m.card).2.2.1
  have hwdd : (discard_and_draw s1 s.current_player m.card).winner = s1.winner :=
    (discard_and_draw_fields s1 s.current_player m.card).2.2.2.2.1
  set sdd := discard_and_draw s1 s.current_player m.card with hsdd
  set s4 := update_sequences sdd s.current_player m.is_removal with hs4
  have h4ne : ∀ q, q ≠ s.current_player → seqsOf s4 q = seqsOf s q := by
    intro q hq
    have : seqsOf sdd q = seqsOf s q := by
      rw [seqsOf_congr q hseqdd, seqsOf_congr q hseq1]
    rw [hs4]
    unfold update_sequences
    split
    · exact this
    · rw [seqsOf_check_ne hq]
      exact this
  have h4self : ∃ t, seqsOf s4 s.current_player = seqsOf s s.current_player ++ t := by
    have hdd : seqsOf sdd s.current_player = seqsOf s s.current_player := by
      rw [seqsOf_congr _ hseqdd, seqsOf_congr _ hseq1]
    rw [hs4]
    unfold update_sequences
    split
    · exact ⟨[], by simp [hdd]⟩
    · obtain ⟨t, ht⟩ := seqsOf_check_self sdd s.current_player
      exact ⟨t, by rw [ht, hdd]⟩
  have h4w : s4.winner = s.winner := by
    rw [hs4]
    unfold update_sequences
    split
    · rw [hwdd, hw1]
    · rw [(check_for_sequences_fields sdd s.current_player).2.2.2.2.2.2.1, hwdd, hw1]
  have hseq5 : (advance_turn np (update_winner stw s4 s.current_player)).sequences
      = s4.sequences := (update_winner_fields stw s4 s.current_player).2.2.2.2.2.2.1
  have hw5 : (advance_turn np (update_winner stw s4 s.current_player)).winner
      = (update_winner stw s4 s.current_player).winner := rfl
  refine ⟨fun q hq => ?_, ?_, ?_⟩
  · rw [seqsOf_congr q hseq5]
    exact h4ne q hq
  · obtain ⟨t, ht⟩ := h4self
    exact ⟨t, by rw [seqsOf_congr _ hseq5, ht]⟩
  · rw [hw5, update_winner_winner, seqsOf_congr _ hseq5, h4w]

/-! ### The freshly initialized state -/

theorem pop_many_length (k : Nat) (d : List Card) (h : k ≤ d.length) :
    (pop_many k d).1.length = k ∧ (pop_many k d).2.length = d.length - k := by
  induction k generalizing d with
  | zero => simp [pop_many]
  | succ n ih =>
    rcases hpop : popLast d with _ | cd
    · rw [popLast_none] at hpop
      subst hpop
      simp at h
    · have hlen := popLast_some hpop
      obtain ⟨h1, h2⟩ := ih cd.2 (by omega)
      unfold pop_many
      rw [hpop]
      simp only [List.length_cons]
      exact ⟨by omega, by omega⟩

theorem deal_players_two (hs : Nat) (deck : List Card) :
    deal_players 2 hs deck =
      ([(pop_many hs deck).1, (pop_many hs (pop_many hs deck).2).1],
       (pop_many hs (pop_many hs deck).2).2) := rfl

theorem card_count_initGame_two (shuffled : List Card) (hlen : shuffled.length = 104) :
    card_count (initGame 2 shuffled) = 104 := by
  obtain ⟨ha1, ha2⟩ := pop_many_length 7 shuffled (by omega)
  obtain ⟨hb1, hb2⟩ := pop_many_length 7 (pop_many 7 shuffled).2 (by omega)
  show (deal_players 2 7 shuffled).2.length
      + ((deal_players 2 7 shuffled).1.map List.length).sum
      + ([] : List Card).length = 104
  rw [deal_players_two]
  simp only [List.map_cons, List.map_nil, List.sum_cons, List.sum_nil, List.length_nil]
  omega

theorem seqsOf_initGame (np : Nat) (shuffled : List Card) (p : Nat) :
    seqsOf (initGame np shuffled) p = [] :=
  getD_replicate_nil np p

theorem winner_initGame (np : Nat) (shuffled : List Card) :
    (initGame np shuffled).winner = none := rfl

/-! ### Claim C1: card conservation -/

/-- C1 (counterexample): the claimed invariant
`|deck| + Σ|hand| + |discard| + |chips on board| = 104` already fails on the
very first move: after `initialize_game` (identity shuffle) and the legal
two-eyed-jack placement `c1_move`, the sum is 105, because the played card
goes to the discard pile while the placed chip also counts. -/
theorem c1_counterexample : Reachable 2 c1_state ∧ claimed_sum c1_state = 105 :=
  ⟨Reachable.step c1_start c1_state c1_move
      (Reachable.init double_deck (List.Perm.refl _)) (by decide) (by decide),
   by decide⟩

/-- C1 (amended): in every reachable state the conserved quantity is
`|deck| + Σ|hand| + |discard| = 104` — the board chips are not part of it, and
the claimed sum instead equals `104 +` the number of chips on the board. -/
theorem c1_card_conservation (s : GameState) (hs : Reachable 2 s) :
    card_count s = 104 ∧ claimed_sum s = 104 + chip_total s := by
  have hcc : card_count s = 104 := by
    induction hs with
    | init shuffled hperm =>
      exact card_count_initGame_two shuffled (by rw [hperm.length_eq]; rfl)
    | step s s' m hr hm hmk ih =>
      rw [card_count_make_move hmk]
      exact ih
  refine ⟨hcc, ?_⟩
  unfold claimed_sum
  rw [hcc]

/-- C1 (witness): the amended conservation law, instantiated at the freshly
initialized identity-shuffle game. -/
theorem c1_card_conservation_witness :
    card_count (initGame 2 double_deck) = 104 ∧
      claimed_sum (initGame 2 double_deck) = 104 + chip_total (initGame 2 double_deck) :=
  c1_card_conservation _ (Reachable.init double_deck (List.Perm.refl _))

/-! ### Claim C6: win-threshold exactness -/

/-- C6: in every state of a 2-player game reachable through the public
interface, the winner field is set exactly at the 2-sequence threshold: a
recorded winner owns at least 2 recorded sequences, and while no winner is
recorded every player owns at most 1 — so the winner is set during the exact
`make_move` call on which the mover's count first reaches 2, never earlier. -/
theorem c6_win_threshold (s : GameState) (hs : Reachable 2 s) :
    (∀ p, s.winner = some p → 2 ≤ (seqsOf s p).length) ∧
    (s.winner = none → ∀ p, (seqsOf s p).length ≤ 1) := by
  induction hs with
  | init shuffled hperm =>
    refine ⟨fun p hp => ?_, fun _ p => ?_⟩
    · rw [winner_initGame] at hp
      exact absurd hp (by simp)
    · rw [seqsOf_initGame]
      simp
  | step s s' m hr hm hmk ih =>
    obtain ⟨hne, ⟨t, hself⟩, hw⟩ := make_move_winner_seqs hmk
    rw [show win_threshold 2 = 2 from rfl] at hw
    by_cases hc : 2 ≤ (seqsOf s' s.current_player).length
    · rw [if_pos hc] at hw
      refine ⟨fun p hp => ?_, fun hw' => ?_⟩
      · rw [hw] at hp
        injection hp with hp
        subst hp
        exact hc
      · rw [hw] at hw'
        exact absurd hw' (by simp)
    · rw [if_neg hc] at hw
      refine ⟨fun p hp => ?_, fun hw' p => ?_⟩
      · rw [hw] at hp
        have h2 := ih.1 p hp
        by_cases hpm : p = s.current_player
        · subst hpm
          rw [hself, List.length_append] at hc ⊢
          omega
        · rw [hne p hpm]
          exact h2
      · rw [hw] at hw'
        by_cases hpm : p = s.current_player
        · subst hpm
          omega
        · rw [hne p hpm]
          exact ih.2 hw' p

/-- C6 (witness): the threshold property instantiated at the freshly
initialized identity-shuffle game. -/
theorem c6_win_threshold_witness :
    (∀ p, (initGame 2 double_deck).winner = some p →
        2 ≤ (seqsOf (initGame 2 double_deck) p).length) ∧
    ((initGame 2 double_deck).winner = none →
        ∀ p, (seqsOf (initGame 2 double_deck) p).length ≤ 1) :=
  c6_win_threshold _ (Reachable.init double_deck (List.Perm.refl _))

/-! ### Claims C8, C4, C10, C3 -/

theorem make_move_turn {np stw : Nat} {s : GameState} {m : Move} {s' : GameState}
    (h : make_move np stw s m = some s') : s'.turn_number = s.turn_number + 1 := by
  rcases make_move_eq_some.mp h with ⟨hmem, s1, hac, rfl⟩
  show (update_winner stw _ _).turn_number + 1 = s.turn_number + 1
  rw [(update_winner_fields _ _ _).2.2.2.2.2.2.2,
    (update_sequences_fields _ _ _).2.2.2.2.2.2.2,
    (discard_and_draw_fields _ _ _).2.2.2.2.2,
    (apply_chip_fields hac).2.2.2.2.2.2]

/-- C8 (counterexample): a state whose winner is already set is not terminal
for the engine — `make_move` still succeeds on it and changes the state. -/
theorem c8_counterexample :
    c8_state.winner = some 0 ∧
    ∃ s', make_move 2 2 c8_state c8_move = some s' ∧ s' ≠ c8_state :=
  ⟨rfl, (make_move 2 2 c8_state c8_move).getD c8_state, by decide, by decide⟩

/-- C8 (amended): once the winner is set, `is_game_over` does report the game
over, but `make_move` itself performs no winner check: a further successful
call still mutates the state (the turn counter advances, so the new state is
different) — terminality is enforced by the callers' `is_game_over` loop, not
by the engine's move application. -/
theorem c8_terminal (np stw : Nat) (s s' : GameState) (m : Move)
    (hw : s.winner.isSome) (h : make_move np stw s m = some s') :
    is_game_over np s = true ∧ s' ≠ s := by
  refine ⟨by simp [is_game_over, hw], fun he => ?_⟩
  have ht := make_move_turn h
  rw [he] at ht
  omega

/-- C8 (witness): the amended statement instantiated at the concrete
winner-already-set state `c8_state` and the move `c8_move`. -/
theorem c8_terminal_witness :
    is_game_over 2 c8_state = true ∧
      (make_move 2 2 c8_state c8_move).getD c8_state ≠ c8_state := by
  have h : make_move 2 2 c8_state c8_move
      = some ((make_move 2 2 c8_state c8_move).getD c8_state) := by decide
  exact c8_terminal 2 2 c8_state _ c8_move (by decide) h

/-- C4 (counterexample): `make_move` can return False even though the played
card is in the mover's hand — a one-eyed-jack removal aimed at a cell holding
no opponent chip fails after passing the card-in-hand validation. -/
theorem c4_counterexample :
    c4_move.card ∈ handOf c4_state c4_state.current_player ∧
    make_move 2 2 c4_state c4_move = none := by decide

/-- C4 (amended): `make_move` returns False iff the card is missing from the
mover's hand or the move is a removal whose target cell belongs to no
opponent's chip set; every failure path of the source returns before any
mutation, so a False result leaves the state unchanged (in this embedding the
failing call returns `none` and no successor state exists). -/
theorem c4_failure_iff (np stw : Nat) (s : GameState) (m : Move) :
    make_move np stw s m = none ↔
      (m.card ∉ handOf s s.current_player ∨
        (m.is_removal = true ∧ ∀ opp, opp < np → opp ≠ s.current_player →
          (m.row, m.col) ∉ chipsOf s opp)) := by
  rw [make_move_eq_none]
  constructor
  · rintro (h | ⟨hmem, hnone⟩)
    · exact Or.inl h
    · right
      rw [apply_chip_eq_none] at hnone
      obtain ⟨hrem, hfind⟩ := hnone
      refine ⟨hrem, fun opp hlt hne hmem' => ?_⟩
      have hx := List.find?_eq_none.mp hfind opp (List.mem_range.mpr hlt)
      apply hx
      show (!(opp == s.current_player) && (chipsOf s opp).contains (m.row, m.col)) = true
      rw [Bool.and_eq_true]
      exact ⟨by simp [hne], List.elem_iff.mpr hmem'⟩
  · rintro (h | ⟨hrem, hall⟩)
    · exact Or.inl h
    · by_cases hmem : m.card ∈ handOf s s.current_player
      · right
        refine ⟨hmem, ?_⟩
        rw [apply_chip_eq_none]
        refine ⟨hrem, List.find?_eq_none.mpr fun opp hopp => ?_⟩
        simp only [List.mem_range] at hopp
        intro hcontra
        have hcontra' : (!(opp == s.current_player)
            && (chipsOf s opp).contains (m.row, m.col)) = true := hcontra
        rw [Bool.and_eq_true] at hcontra'
        exact hall opp hopp (by simpa using hcontra'.1) (List.elem_iff.mp hcontra'.2)
      · exact Or.inl hmem

theorem bget_bset_self {b : List (List ChipColor)} {r c : Nat} {v : ChipColor}
    (hb : BoardWf b) (hr : r < 10) (hc : c < 10) :
    bget (bset b r c v) r c = v := by
  have hrl : r < b.length := by rw [hb.1]; exact hr
  have hrow : b.getD r [] ∈ b := by
    rw [List.getD_eq_getElem b [] hrl]
    exact List.getElem_mem hrl
  unfold bget bset
  rw [getD_set_self hrl]
  exact getD_set_self (by rw [hb.2 _ hrow]; exact hc)

/-- C10: for a non-removal move, `make_move` validates only that the card is
in the mover's hand; it then succeeds and overwrites the target cell with the
mover's chip color unconditionally — even if the cell is occupied, is a corner
WILD cell, or is not a layout position of the played card. -/
theorem c10_placement_unchecked (np stw : Nat) (s : GameState) (m : Move)
    (hrem : m.is_removal = false) (hcard : m.card ∈ handOf s s.current_player)
    (hb : BoardWf s.board) (hrow : m.row < 10) (hcol : m.col < 10) :
    ∃ s', make_move np stw s m = some s' ∧
      bget s'.board m.row m.col = get_chip_color s.current_player := by
  have hac := @apply_chip_placement np s m hrem
  refine ⟨_, make_move_eq_some.mpr ⟨hcard, _, hac, rfl⟩, ?_⟩
  show bget (advance_turn np _).board m.row m.col = _
  rw [show ∀ t : GameState, (advance_turn np t).board = t.board from fun _ => rfl,
    (update_winner_fields _ _ _).1, (update_sequences_fields _ _ _).1,
    (discard_and_draw_fields _ _ _).1]
  exact bget_bset_self hb hrow hcol

/-- C10 (witness): placing 7♣ on the WILD corner (0,0) from the freshly dealt
identity-shuffle game succeeds and overwrites the corner with BLUE. -/
theorem c10_placement_unchecked_witness :
    c10_move.is_removal = false ∧
    c10_move.card ∈ handOf c1_start c1_start.current_player ∧
    BoardWf c1_start.board ∧ c10_move.row < 10 ∧ c10_move.col < 10 ∧
    ∃ s', make_move 2 2 c1_start c10_move = some s' ∧
      bget s'.board c10_move.row c10_move.col = get_chip_color c1_start.current_player :=
  ⟨rfl, by decide, ⟨by decide, by decide⟩, by decide, by decide,
    c10_placement_unchecked 2 2 c1_start c10_move rfl (by decide)
      ⟨by decide, by decide⟩ (by decide) (by decide)⟩

/-- C3: the fixed board layout does not give every non-jack card exactly two
cells — A♠ occupies three cells and 2♥ only one (the code contradicts its own
comment "Each non-Jack card appears exactly twice on the board"); jacks do
have no layout cell. -/
theorem c3_layout_multiplicity_bug :
    find_card_positions ⟨"A", "S"⟩ = [(2, 1), (4, 9), (8, 7)] ∧
    find_card_positions ⟨"2", "H"⟩ = [(5, 4)] ∧
    find_card_positions ⟨"J", "D"⟩ = [] := by decide

/-! ### Claim C7: soundness of `get_valid_moves` -/

theorem is_position_available_iff {s : GameState} {r c : Nat} :
    is_position_available s r c = true ↔
      get_board_card r c ≠ "XX" ∧ bget s.board r c = ChipColor.EMPTY := by
  unfold is_position_available
  by_cases h : get_board_card r c = "XX" <;> simp [h]

/-- C7: every move produced by `get_valid_moves` uses a card of the player's
hand; every placement targets an empty non-corner cell and, unless the card is
a two-eyed jack, a cell whose fixed layout card is the played card (so a dead
card contributes no move); every removal targets a chip recorded — and, under
board/chip-set consistency, shown on the board — for some opponent, belonging
to none of that opponent's recorded sequences. -/
theorem c7_valid_moves_sound (np : Nat) (s : GameState) (p : Nat) (m : Move)
    (hm : m ∈ get_valid_moves np s p) (hcons : ChipsConsistent np s) :
    m.card ∈ handOf s p ∧
    (m.is_removal = false →
      get_board_card m.row m.col ≠ "XX" ∧
      bget s.board m.row m.col = ChipColor.EMPTY ∧
      (m.card.is_two_eyed_jack = false → get_board_card m.row m.col = cardStr m.card)) ∧
    (m.is_removal = true →
      ∃ opp, opp < np ∧ opp ≠ p ∧ (m.row, m.col) ∈ chipsOf s opp ∧
        bget s.board m.row m.col = get_chip_color opp ∧
        ∀ sq ∈ seqsOf s opp, (m.row, m.col) ∉ sq) := by
  unfold get_valid_moves at hm
  rw [List.mem_flatMap] at hm
  obtain ⟨card, hcard, hm⟩ := hm
  by_cases h2 : card.is_two_eyed_jack
  · rw [if_pos h2] at hm
    rw [List.mem_filterMap] at hm
    obtain ⟨rc, _, hsome⟩ := hm
    by_cases ha : is_position_available s rc.1 rc.2
    · rw [if_pos ha] at hsome
      injection hsome with hsome
      subst hsome
      obtain ⟨hxx, hempty⟩ := is_position_available_iff.mp ha
      exact ⟨hcard, fun _ => ⟨hxx, hempty, fun h2f => by simp [h2] at h2f⟩,
        fun hf => by simp at hf⟩
    · rw [if_neg ha] at hsome
      exact absurd hsome (by simp)
  · by_cases h1 : card.is_one_eyed_jack
    · rw [if_neg h2, if_pos h1] at hm
      rw [List.mem_flatMap] at hm
      obtain ⟨opp, hopp, hm⟩ := hm
      rw [List.mem_range] at hopp
      by_cases hop : opp = p
      · rw [if_pos hop] at hm
        exact absurd hm (List.not_mem_nil m)
      · rw [if_neg hop] at hm
        rw [List.mem_filterMap] at hm
        obtain ⟨rc, hrc, hsome⟩ := hm
        by_cases hseq : is_chip_in_completed_sequence s rc.1 rc.2 opp
        · rw [if_pos hseq] at hsome
          exact absurd hsome (by simp)
        · rw [if_neg hseq] at hsome
          injection hsome with hsome
          subst hsome
          have hrc' : ((rc.1, rc.2) : Nat × Nat) ∈ chipsOf s opp := by
            rwa [Prod.mk.eta]
          refine ⟨hcard, fun hf => by simp at hf,
            fun _ => ⟨opp, hopp, hop, hrc', ?_, ?_⟩⟩
          · have := hcons opp (List.mem_range.mpr hopp) rc hrc
            simpa using this
          · intro sq hsq hmemsq
            apply hseq
            unfold is_chip_in_completed_sequence
            rw [List.any_eq_true]
            exact ⟨sq, hsq, by simpa using hmemsq⟩
    · rw [if_neg h2, if_neg h1] at hm
      by_cases hdead : is_dead_card s card
      · rw [if_pos hdead] at hm
        exact absurd hm (List.not_mem_nil m)
      · rw [if_neg hdead] at hm
        rw [List.mem_filterMap] at hm
        obtain ⟨rc, hrc, hsome⟩ := hm
        by_cases ha : is_position_available s rc.1 rc.2
        · rw [if_pos ha] at hsome
          injection hsome with hsome
          subst hsome
          obtain ⟨hxx, hempty⟩ := is_position_available_iff.mp ha
          have hlay : get_board_card rc.1 rc.2 = cardStr card := by
            unfold find_card_positions at hrc
            rw [List.mem_filter] at hrc
            exact eq_of_beq hrc.2
          exact ⟨hcard, fun _ => ⟨hxx, hempty, fun _ => hlay⟩, fun hf => by simp at hf⟩
        · rw [if_neg ha] at hsome
          exact absurd hsome (by simp)

/-- C7 (witness): the soundness conclusions instantiated at the concrete
one-eyed-jack removal `c7_move` out of `c7_state`. -/
theorem c7_valid_moves_sound_witness :
    SequenceBot.c7_move.card ∈ handOf SequenceBot.c7_state 0 ∧
    (SequenceBot.c7_move.is_removal = false →
      get_board_card SequenceBot.c7_move.row SequenceBot.c7_move.col ≠ "XX" ∧
      bget SequenceBot.c7_state.board SequenceBot.c7_move.row SequenceBot.c7_move.col
        = ChipColor.EMPTY ∧
      (SequenceBot.c7_move.card.is_two_eyed_jack = false →
        get_board_card SequenceBot.c7_move.row SequenceBot.c7_move.col
          = cardStr SequenceBot.c7_move.card)) ∧
    (SequenceBot.c7_move.is_removal = true →
      ∃ opp, opp < 2 ∧ opp ≠ 0 ∧
        (SequenceBot.c7_move.row, SequenceBot.c7_move.col) ∈ chipsOf SequenceBot.c7_state opp ∧
        bget SequenceBot.c7_state.board SequenceBot.c7_move.row SequenceBot.c7_move.col
          = get_chip_color opp ∧
        ∀ sq ∈ seqsOf SequenceBot.c7_state opp,
          (SequenceBot.c7_move.row, SequenceBot.c7_move.col) ∉ sq) :=
  c7_valid_moves_sound 2 SequenceBot.c7_state 0 SequenceBot.c7_move (by decide)
    (by unfold ChipsConsistent; decide)

/-! ### Claim C5: the sequence-overlap invariant -/

theorem optList5 {α : Type} {o0 o1 o2 o3 o4 : Option α} {r : List α}
    (h : optList [o0, o1, o2, o3, o4] = some r) :
    ∃ a0 a1 a2 a3 a4, o0 = some a0 ∧ o1 = some a1 ∧ o2 = some a2 ∧
      o3 = some a3 ∧ o4 = some a4 ∧ r = [a0, a1, a2, a3, a4] := by
  rcases o0 with _ | a0
  · simp [optList] at h
  rcases o1 with _ | a1
  · simp [optList] at h
  rcases o2 with _ | a2
  · simp [optList] at h
  rcases o3 with _ | a3
  · simp [optList] at h
  rcases o4 with _ | a4
  · simp [optList] at h
  refine ⟨a0, a1, a2, a3, a4, rfl, rfl, rfl, rfl, rfl, ?_⟩
  simp [optList] at h
  exact h.symm

theorem cell_some {b : List (List ChipColor)} {pc : ChipColor} {r c : Int}
    {a : Nat × Nat}
    (h : (if 0 ≤ r ∧ r < 10 ∧ 0 ≤ c ∧ c < 10 then
        (if bget b r.toNat c.toNat == pc || bget b r.toNat c.toNat == ChipColor.WILD
         then some (r.toNat, c.toNat) else none)
      else none) = some a) :
    a = (r.toNat, c.toNat) ∧ 0 ≤ r ∧ r < 10 ∧ 0 ≤ c ∧ c < 10 := by
  by_cases hb : 0 ≤ r ∧ r < 10 ∧ 0 ≤ c ∧ c < 10
  · rw [if_pos hb] at h
    split at h
    · injection h with h
      exact ⟨h.symm, hb⟩
    · exact absurd h (by simp)
  · rw [if_neg hb] at h
    exact absurd h (by simp)

theorem eq_of_length_five {α : Type} (x : α) {l : List α} (hl : l.length = 5) :
    l = [l.getD 0 x, l.getD 1 x, l.getD 2 x, l.getD 3 x, l.getD 4 x] := by
  rcases l with _ | ⟨a, l⟩
  · simp at hl
  rcases l with _ | ⟨b, l⟩
  · simp at hl
  rcases l with _ | ⟨c, l⟩
  · simp at hl
  rcases l with _ | ⟨d, l⟩
  · simp at hl
  rcases l with _ | ⟨e, l⟩
  · simp at hl
  rcases l with _ | ⟨f, l⟩
  · rfl
  · simp only [List.length_cons] at hl
    omega

theorem check_sequence_from_shape {b : List (List ChipColor)} {sr sc : Nat}
    {dr dc : Int} {pc : ChipColor} {sq : List (Nat × Nat)}
    (h : check_sequence_from b sr sc dr dc pc = some sq) :
    sq.length = 5 ∧ ∀ i, i < 5 →
      (sq.getD i (0, 0) = (((sr : Int) + (i : Int) * dr).toNat,
          ((sc : Int) + (i : Int) * dc).toNat) ∧
       0 ≤ (sr : Int) + (i : Int) * dr ∧ (sr : Int) + (i : Int) * dr < 10 ∧
       0 ≤ (sc : Int) + (i : Int) * dc ∧ (sc : Int) + (i : Int) * dc < 10) := by
  unfold check_sequence_from at h
  rw [show List.range 5 = [0, 1, 2, 3, 4] from rfl] at h
  simp only [List.map_cons, List.map_nil] at h
  obtain ⟨a0, a1, a2, a3, a4, f0, f1, f2, f3, f4, rfl⟩ := optList5 h
  have c0 := cell_some f0
  have c1 := cell_some f1
  have c2 := cell_some f2
  have c3 := cell_some f3
  have c4 := cell_some f4
  refine ⟨rfl, ?_⟩
  intro i hi
  match i, hi with
  | 0, _ => exact ⟨by simpa using c0.1, c0.2⟩
  | 1, _ => exact ⟨by simpa using c1.1, c1.2⟩
  | 2, _ => exact ⟨by simpa using c2.1, c2.2⟩
  | 3, _ => exact ⟨by simpa using c3.1, c3.2⟩
  | 4, _ => exact ⟨by simpa using c4.1, c4.2⟩

theorem check_sequence_from_card {b : List (List ChipColor)} {sr sc : Nat}
    {d : Int × Int} {pc : ChipColor} {sq : List (Nat × Nat)}
    (hd : d ∈ directions) (h : check_sequence_from b sr sc d.1 d.2 pc = some sq) :
    sq.toFinset.card = 5 := by
  obtain ⟨hlen, hget⟩ := check_sequence_from_shape h
  obtain ⟨h0, hb0⟩ := hget 0 (by omega)
  obtain ⟨h1, hb1⟩ := hget 1 (by omega)
  obtain ⟨h2, hb2⟩ := hget 2 (by omega)
  obtain ⟨h3, hb3⟩ := hget 3 (by omega)
  obtain ⟨h4, hb4⟩ := hget 4 (by omega)
  have hsq := eq_of_length_five ((0, 0) : Nat × Nat) hlen
  rw [h0, h1, h2, h3, h4] at hsq
  rw [hsq]
  rw [List.toFinset_card_of_nodup]
  · rfl
  · simp only [directions, List.mem_cons, List.not_mem_nil, or_false] at hd
    rcases hd with rfl | rfl | rfl | rfl <;>
      simp only [] at hb0 hb1 hb2 hb3 hb4 <;>
      simp only [List.nodup_cons, List.mem_cons, List.mem_singleton, List.not_mem_nil,
        Prod.mk.injEq, not_and, List.nodup_nil, and_true, not_false_eq_true,
        or_false, not_or] <;>
      omega

theorem seqOverlap_comm (a b : List (Nat × Nat)) : seqOverlap a b = seqOverlap b a := by
  unfold seqOverlap
  rw [Finset.inter_comm]

theorem can_add_sequence_iff {st : GameState} {sq : List (Nat × Nat)} {p : Nat} :
    can_add_sequence st sq p = true ↔ ∀ ex ∈ seqsOf st p, seqOverlap sq ex ≤ 1 := by
  unfold can_add_sequence
  rw [List.all_eq_true]
  constructor <;> intro h ex hex <;> have hx := h ex hex <;> simpa using hx

theorem new_sequences_card (s : GameState) (p : Nat) :
    ∀ sq ∈ new_sequences s p, sq.toFinset.card = 5 := by
  intro sq hsq
  unfold new_sequences at hsq
  rw [List.mem_flatMap] at hsq
  obtain ⟨rc, _, hsq⟩ := hsq
  rw [List.mem_filterMap] at hsq
  obtain ⟨d, hd, hsome⟩ := hsq
  rcases hcheck : check_sequence_from s.board rc.1 rc.2 d.1 d.2 (get_chip_color p)
    with _ | sq'
  · rw [hcheck] at hsome
    exact absurd hsome (by simp)
  · rw [hcheck] at hsome
    have hsome' : (if is_sequence_already_counted s sq' p = true then none
        else some sq') = some sq := hsome
    by_cases hcount : is_sequence_already_counted s sq' p = true
    · rw [if_pos hcount] at hsome'
      exact absurd hsome' (by simp)
    · rw [if_neg hcount] at hsome'
      injection hsome' with heq
      subst heq
      exact check_sequence_from_card hd hcheck

theorem foldl_add_seq_inv (p : Nat) (cs : List (List (Nat × Nat))) (st : GameState)
    (hcs : ∀ sq ∈ cs, sq.toFinset.card = 5)
    (hP : ∀ q, (∀ sq ∈ seqsOf st q, sq.toFinset.card = 5) ∧
      List.Pairwise (fun a b => seqOverlap a b ≤ 1) (seqsOf st q)) :
    ∀ q, (∀ sq ∈ seqsOf (cs.foldl (add_seq p) st) q, sq.toFinset.card = 5) ∧
      List.Pairwise (fun a b => seqOverlap a b ≤ 1)
        (seqsOf (cs.foldl (add_seq p) st) q) := by
  induction cs generalizing st with
  | nil => exact hP
  | cons c rest ih =>
    simp only [List.foldl_cons]
    refine ih (add_seq p st c) (fun sq hsq => hcs sq (List.mem_cons_of_mem c hsq)) ?_
    intro q
    by_cases hq : q = p
    · subst hq
      rcases seqsOf_add_seq_self q st c with heq | ⟨hcan, heq⟩
      · rw [heq]
        exact hP q
      · rw [heq]
        have hcard := hcs c (List.mem_cons_self c rest)
        constructor
        · intro sq hsq
          rcases List.mem_append.mp hsq with hx | hx
          · exact (hP q).1 sq hx
          · rw [List.mem_singleton] at hx
            subst hx
            exact hcard
        · rw [List.pairwise_append]
          refine ⟨(hP q).2, List.pairwise_singleton _ _, ?_⟩
          intro a ha b hb
          rw [List.mem_singleton] at hb
          subst hb
          rw [seqOverlap_comm]
          exact can_add_sequence_iff.mp hcan a ha
    · rw [seqsOf_add_seq_ne p q st c hq]
      exact hP q

theorem make_move_seq_inv {np stw : Nat} {s : GameState} {m : Move} {s' : GameState}
    (h : make_move np stw s m = some s')
    (hP : ∀ q, (∀ sq ∈ seqsOf s q, sq.toFinset.card = 5) ∧
      List.Pairwise (fun a b => seqOverlap a b ≤ 1) (seqsOf s q)) :
    ∀ q, (∀ sq ∈ seqsOf s' q, sq.toFinset.card = 5) ∧
      List.Pairwise (fun a b => seqOverlap a b ≤ 1) (seqsOf s' q) := by
  rcases make_move_eq_some.mp h with ⟨hmem, s1, hac, rfl⟩
  have hseqdd : (discard_and_draw s1 s.current_player m.card).sequences = s.sequences := by
    rw [(discard_and_draw_fields s1 s.current_player m.card).2.2.1,
      (apply_chip_fields hac).2.2.2.2.1]
  have hPdd : ∀ q, (∀ sq ∈ seqsOf (discard_and_draw s1 s.current_player m.card) q,
        sq.toFinset.card = 5) ∧
      List.Pairwise (fun a b => seqOverlap a b ≤ 1)
        (seqsOf (discard_and_draw s1 s.current_player m.card) q) := by
    intro q
    rw [seqsOf_congr q hseqdd]
    exact hP q
  have hP4 : ∀ q, (∀ sq ∈ seqsOf (update_sequences
        (discard_and_draw s1 s.current_player m.card) s.current_player m.is_removal) q,
        sq.toFinset.card = 5) ∧
      List.Pairwise (fun a b => seqOverlap a b ≤ 1)
        (seqsOf (update_sequences (discard_and_draw s1 s.current_player m.card)
          s.current_player m.is_removal) q) := by
    unfold update_sequences
    split
    · exact hPdd
    · exact foldl_add_seq_inv s.current_player
        (new_sequences (discard_and_draw s1 s.current_player m.card) s.current_player)
        (discard_and_draw s1 s.current_player m.card)
        (new_sequences_card _ _) hPdd
  intro q
  have hseqfin : (advance_turn np (update_winner stw
      (update_sequences (discard_and_draw s1 s.current_player m.card)
        s.current_player m.is_removal) s.current_player)).sequences
      = (update_sequences (discard_and_draw s1 s.current_player m.card)
        s.current_player m.is_removal).sequences :=
    (update_winner_fields stw _ s.current_player).2.2.2.2.2.2.1
  rw [seqsOf_congr q hseqfin]
  exact hP4 q

/-- C5: in every reachable state of a 2-player game, any two sequences
recorded for the same player share at most 1 coordinate, and no two recorded
sequences have the same coordinate set. -/
theorem c5_overlap_invariant (s : GameState) (hs : Reachable 2 s) (p : Nat) :
    List.Pairwise (fun a b => seqOverlap a b ≤ 1 ∧ a.toFinset ≠ b.toFinset)
      (seqsOf s p) := by
  have hinv : ∀ q, (∀ sq ∈ seqsOf s q, sq.toFinset.card = 5) ∧
      List.Pairwise (fun a b => seqOverlap a b ≤ 1) (seqsOf s q) := by
    induction hs with
    | init shuffled hperm =>
      intro q
      rw [seqsOf_initGame]
      exact ⟨by simp, List.Pairwise.nil⟩
    | step s s' m hr hm hmk ih => exact make_move_seq_inv hmk ih
  refine List.Pairwise.imp_of_mem ?_ (hinv p).2
  intro a b ha hb hab
  refine ⟨hab, fun hne => ?_⟩
  have ha5 := (hinv p).1 a ha
  unfold seqOverlap at hab
  rw [hne, Finset.inter_self] at hab
  rw [hne] at ha5
  omega

/-- C5 (witness): the overlap invariant instantiated at the freshly
initialized identity-shuffle game for player 1. -/
theorem c5_overlap_invariant_witness :
    List.Pairwise (fun a b => seqOverlap a b ≤ 1 ∧ a.toFinset ≠ b.toFinset)
      (seqsOf (initGame 2 double_deck) 1) :=
  c5_overlap_invariant _ (Reachable.init double_deck (List.Perm.refl _)) 1

end SequenceGame

/-! ### Claims C2 and C9: the move evaluator -/

namespace SequenceBot

open SequenceGame

theorem foldl_line_flag (b : List (List ChipColor)) (row col : Nat) (dr dc : Int)
    (pc : ChipColor) (l : List Int) (init : LineInfo) :
    l.foldl (line_flag_step b row col dr dc pc) init = {
      can_complete_sequence :=
        init.can_complete_sequence || l.any (off_offense b row col pc dr dc 4),
      extends_4 := init.extends_4 || l.any (off_offense b row col pc dr dc 4),
      extends_3 := init.extends_3 || l.any (off_offense b row col pc dr dc 3),
      extends_2 := init.extends_2 || l.any (off_offense b row col pc dr dc 2),
      new_potential := init.new_potential || l.any (off_new_potential b row col pc dr dc),
      blocks_win := init.blocks_win || l.any (off_block_win b row col pc dr dc),
      blocks_4 := init.blocks_4 || l.any (off_block_win b row col pc dr dc),
      blocks_3 := init.blocks_3 || l.any (off_block b row col pc dr dc 3),
      blocks_2 := init.blocks_2 || l.any (off_block b row col pc dr dc 2) } := by
  induction l generalizing init with
  | nil => cases init; simp
  | cons o rest ih =>
    simp only [List.foldl_cons, List.any_cons]
    rw [ih]
    simp [line_flag_step, Bool.or_assoc]

/-- `_analyze_line` computes, for each flag, whether some window offset
satisfies that flag's condition. -/
theorem analyze_line_eq (b : List (List ChipColor)) (row col : Nat) (dr dc : Int)
    (pc : ChipColor) :
    analyze_line b row col dr dc pc = {
      can_complete_sequence := offsets.any (off_offense b row col pc dr dc 4),
      extends_4 := offsets.any (off_offense b row col pc dr dc 4),
      extends_3 := offsets.any (off_offense b row col pc dr dc 3),
      extends_2 := offsets.any (off_offense b row col pc dr dc 2),
      new_potential := offsets.any (off_new_potential b row col pc dr dc),
      blocks_win := offsets.any (off_block_win b row col pc dr dc),
      blocks_4 := offsets.any (off_block_win b row col pc dr dc),
      blocks_3 := offsets.any (off_block b row col pc dr dc 3),
      blocks_2 := offsets.any (off_block b row col pc dr dc 2) } := by
  unfold analyze_line
  rw [foldl_line_flag]
  simp

theorem foldl_score_sum {α : Type} (f : α → Int) (step : OffAcc → α → OffAcc)
    (hstep : ∀ acc d, (step acc d).score = acc.score + f d) (l : List α) (acc : OffAcc) :
    (l.foldl step acc).score = acc.score + (l.map f).sum := by
  induction l generalizing acc with
  | nil => simp
  | cons x xs ih =>
    simp only [List.foldl_cons, List.map_cons, List.sum_cons]
    rw [ih, hstep]
    ring

theorem offense_dir_step_score (b : List (List ChipColor)) (row col : Nat)
    (pc : ChipColor) (w : Weights) (acc : OffAcc) (d : Int × Int) :
    (offense_dir_step b row col pc w acc d).score =
      acc.score + dir_offense_weight b row col pc w d := by
  simp only [offense_dir_step, analyze_line_eq, dir_offense_weight]
  split_ifs <;> simp <;> ring

/-- C9 (amended): the direction loop of `_evaluate_placement_offensive` adds,
per direction, a single contribution determined by the direction's flags (win
weight when some window completes, plus one extend/new-potential weight by
`elif` precedence) — not one weight per qualifying window. -/
theorem c9_offensive_per_direction (s : GameState) (player_id : Nat) (m : Move)
    (w : Weights) :
    (offensive_line s player_id m w).score =
      (directions.map (dir_offense_weight s.board m.row m.col
        (get_chip_color player_id) w)).sum := by
  unfold offensive_line
  rw [foldl_score_sum (dir_offense_weight s.board m.row m.col
    (get_chip_color player_id) w) _
    (offense_dir_step_score s.board m.row m.col (get_chip_color player_id) w)
    directions ⟨0, false, 0⟩]
  simp

/-- C9 (counterexample): with four distinct 2-friendly horizontal windows
through the target cell, the per-window sum the claim describes is 4 × 28 =
112, but the evaluator adds the extend-2 weight once per direction: its line
score — and its whole offensive score, all positional bonuses being 0 here —
is 28. -/
theorem c9_counterexample :
    (offensive_line c9_state 0 c9_move balanced_weights).score = 28 ∧
    (evaluate_placement_offensive c9_state 0 c9_move balanced_weights).1 = 28 ∧
    claimed_offensive_sum c9_state 0 c9_move balanced_weights = 112 ∧
    (offensive_line c9_state 0 c9_move balanced_weights).score ≠
      claimed_offensive_sum c9_state 0 c9_move balanced_weights :=
  ⟨by decide, by decide, by decide, by decide⟩

/-- C2: defensive scoring is broken in the source — `_evaluate_placement_defensive`
passes the opponent's color to `_analyze_line`, whose block conditions count
chips of the *passed* color as "own", so they fire on windows holding 4 of the
bot's own chips and never on opponent threats.  At the concrete blocking
scenario (opponent 4-in-a-row at (2,2)..(2,5), completable at the legal move
(2,6)), the claim's reading assigns at least the block-win weight (6100 total
over the qualifying windows), but the code's defensive score is 0 with
`blocks_opponent = False`. -/
theorem c2_defensive_bug :
    c2_move ∈ get_valid_moves 2 c2_state 0 ∧
    evaluate_placement_defensive 2 c2_state 0 c2_move balanced_weights = (0, false) ∧
    claimed_defensive_sum 2 c2_state 0 c2_move balanced_weights = 6100 :=
  ⟨by decide, by decide, by decide⟩

end SequenceBot
